import Mathlib

/-!
Verification development for the `configvars` package.

The definitions below are a shallow embedding of the Python sources:
`src/configvars/__main__utils.py` (the assignment-line parser and the
interactive input loop), `src/configvars/storage.py` (the read-only
attribute-accessible mapping `_AttrFrozenDict` and the JSON persistence
functions) and `src/configvars/__init__.py` (the module-level dynamic
attribute lookup).  Strings are modelled as `List Char`; the Python regexes
are modelled at their ASCII core (`\w` as `[A-Za-z0-9_]`), which is exact on
ASCII characters: claims whose inputs are drawn from explicit ASCII classes
need nothing more, and the one theorem that quantifies over arbitrary lines
carries an explicit all-ASCII hypothesis recording that scope, because
Python's `\w` is Unicode-aware and also accepts characters such as `é`
outside it.
-/

namespace Configvars

/-! ### Character classes used by the regexes of `parse_key_value` -/

/-- Membership in Python's `\w` class on the ASCII plane: `[A-Za-z0-9_]`.
Python's `\w` is Unicode-aware and additionally matches non-ASCII word
characters (for example `é`); on ASCII characters this model agrees with
it exactly, and theorems about arbitrary lines state that scope
explicitly. -/
def isWordChar (c : Char) : Bool := c.isAlphanum || c == '_'

/-- Membership in `[a-zA-Z_]`, the leading identifier character class. -/
def isIdentStartChar (c : Char) : Bool := c.isAlpha || c == '_'

/-- Membership in `\d`, ASCII digits. -/
def isDigitChar (c : Char) : Bool := c.isDigit

/-- Membership in the class `["']` of the string-literal regex. -/
def isQuoteChar (c : Char) : Bool := c == '\'' || c == '"'

/-- Characters matched by `.` without `re.DOTALL`: everything but a newline. -/
def notNL (c : Char) : Bool := !(c == '\n')

/-- Match of the full identifier regex `[a-zA-Z_]\w*`. -/
def identMatch (l : List Char) : Bool :=
  match l with
  | [] => false
  | c :: t => isIdentStartChar c && t.all isWordChar

/-- Match of the suffix regex ` ?.+` (equivalently: non-empty and free of
newlines, since `.` matches the optional leading space as well). -/
def tailMatch (t : List Char) : Bool := !t.isEmpty && t.all notNL

/-- Embedding of `re.fullmatch(r"[a-zA-Z_]\w* ?= ?.+", s)` from line 35 of
`__main__utils.py`.  The identifier part is forced to be the maximal
word-character prefix because the following piece starts with a space or
an equals sign, neither of which is a word character.  Exact for lines of
ASCII characters; on non-ASCII lines the real program is more permissive,
since the Unicode-aware `\w` also accepts characters such as `é` in the
identifier tail. -/
def shapeMatch (s : List Char) : Bool :=
  match s.takeWhile isWordChar, s.dropWhile isWordChar with
  | [], _ => false
  | c :: _, rest =>
    isIdentStartChar c &&
    match rest with
    | '=' :: t => tailMatch t
    | ' ' :: '=' :: t => tailMatch t
    | _ => false

/-- Embedding of `re.search(r"= ?.+", s)` from line 40 of
`__main__utils.py`: the leftmost match starts at the first `=` that is
followed by at least one non-newline character (a space counts), and the
greedy `.+` extends the match to the end of the line. -/
def searchEqGroup : List Char → Option (List Char)
  | [] => none
  | c :: t =>
    if c == '=' then
      let dotPart := t.takeWhile notNL
      if dotPart.isEmpty then searchEqGroup t else some ('=' :: dotPart)
    else searchEqGroup t

/-- Embedding of `str.lstrip("= ")`: drop every leading `=` or space. -/
def lstripEqSpace (l : List Char) : List Char :=
  l.dropWhile (fun c => c == '=' || c == ' ')

/-- Consume the optional sign of `[-+]?`; the factoring is sound because in
every literal regex the piece after the optional sign starts with a digit
or a dot, never with a sign. -/
def dropSign : List Char → List Char
  | [] => []
  | c :: t => if c == '+' || c == '-' then t else c :: t

/-- Match of `\d+`: non-empty and all digits. -/
def digitsOnly1 (l : List Char) : Bool := !l.isEmpty && l.all isDigitChar

/-- Embedding of `re.fullmatch(r"[-+]?\d+", value)` (line 44). -/
def intFullmatch (v : List Char) : Bool := digitsOnly1 (dropSign v)

/-- Match of the float regex body after the optional sign: one of
`\d+\.\d*`, `\d*\.\d+` or `\d+[Ee][-+]?\d+`.  The leading digit block is
forced maximal because each alternative continues with `.` or `[Ee]`. -/
def floatTail (m : List Char) : Bool :=
  match m.dropWhile isDigitChar with
  | [] => false
  | c :: t =>
    if c == '.' then
      (!(m.takeWhile isDigitChar).isEmpty && t.all isDigitChar) ||
      (!t.isEmpty && t.all isDigitChar)
    else
      (c == 'E' || c == 'e') && !(m.takeWhile isDigitChar).isEmpty && intFullmatch t

/-- Embedding of the verbose float regex of lines 45-48. -/
def floatFullmatch (v : List Char) : Bool := floatTail (dropSign v)

/-- Last element of a non-empty list, with a default for the `[]` case. -/
def lastD : List Char → Char → Char
  | [], dflt => dflt
  | [c], _ => c
  | _ :: c :: t, dflt => lastD (c :: t) dflt

/-- Embedding of `re.fullmatch("[\"'].*[\"']", value, flags=re.DOTALL)`
(line 49): a first quote character, anything at all (newlines included),
and a final quote character.  The two quote characters are NOT required
to match each other. -/
def strFullmatch : List Char → Bool
  | [] => false
  | [_] => false
  | c :: d :: t => isQuoteChar c && isQuoteChar (lastD (d :: t) d)

/-- Embedding of `operator.itemgetter(slice(1, -1, None))`, i.e. `value[1:-1]`. -/
def stripOuter (v : List Char) : List Char := (v.drop 1).dropLast

/-- Value of a digit string read in base 10, as Python `int` does. -/
def digitsToNat (l : List Char) : Nat :=
  l.foldl (fun acc c => acc * 10 + (c.toNat - ('0').toNat)) 0

/-- Embedding of `int(value)` on strings of shape `[-+]?\d+`. -/
def strToInt (l : List Char) : Int :=
  match l with
  | '+' :: t => (digitsToNat t : Int)
  | '-' :: t => -(digitsToNat t : Int)
  | _ => (digitsToNat l : Int)

/-- Typed literal values produced by the parser and stored on disk.  The
`vfloat` payload keeps the literal text of the float: no claim inspects a
float value, and Python's text-to-double conversion is outside the model. -/
inductive Value where
  | vint (n : Int)
  | vfloat (raw : String)
  | vstr (s : String)
deriving DecidableEq

/-- Errors that `parse_key_value` can raise: `SyntaxError("invalid syntax")`,
`TypeError("invalid type used...")`, the defensive
`Exception("regexes match more than one type")`, and the crash that would
occur on line 42 if `value_match` were `None` (`AttributeError` on
`None.group()`). -/
inductive ParseErr where
  | syntaxError
  | typeError
  | ambiguous
  | noneGroupCrash
deriving DecidableEq

/-- Embedding of lines 43-64 of `parse_key_value`: build the three pattern
matches in order (int, float, str), fail when none matches, fail with the
defensive error when more than one matches, and otherwise construct the
value with `int`, `float` or the quote-stripping item getter. -/
def classify (value : List Char) : Except ParseErr Value :=
  let mInt := intFullmatch value
  let mFloat := floatFullmatch value
  let mStr := strFullmatch value
  let n := (if mInt then 1 else 0) + (if mFloat then 1 else 0) + (if mStr then 1 else 0)
  if n == 0 then .error .typeError
  else if 1 < n then .error .ambiguous
  else if mInt then .ok (.vint (strToInt value))
  else if mFloat then .ok (.vfloat (String.mk value))
  else .ok (.vstr (String.mk (stripOuter value)))

/-- Embedding of `parse_key_value` (lines 11-64 of `__main__utils.py`):
check the overall line shape, extract the key as the leading identifier
match and the raw value as the first `= ?.+` search stripped of leading
`=` and spaces, then classify the value. -/
def parseKeyValue (s : List Char) : Except ParseErr (String × Value) :=
  if shapeMatch s then
    match searchEqGroup s with
    | some g =>
      match classify (lstripEqSpace g) with
      | .ok v => .ok (String.mk (s.takeWhile isWordChar), v)
      | .error e => .error e
    | none => .error .noneGroupCrash
  else .error .syntaxError

/-! ### Storage layer: `_AttrFrozenDict` and the persistence functions -/

/-- Insertion-ordered association list standing in for a Python `dict`
whose keys are strings; Python dictionaries never hold duplicate keys. -/
abbrev Dict := List (String × Value)

/-- Python `d[k]` lookup. -/
def lookupKey (k : String) : Dict → Option Value
  | [] => none
  | (k2, v) :: t => if k2 = k then some v else lookupKey k t

/-- Python `d[k] = v`: replace the value in place if the key is present
(preserving its position), otherwise append the new pair at the end. -/
def dictSet : Dict → String → Value → Dict
  | [], k, v => [(k, v)]
  | (k2, u) :: t, k, v => if k2 = k then (k2, v) :: t else (k2, u) :: dictSet t k v

/-- Python `dict.__eq__` on dictionaries: equal exactly when every entry of
each is found in the other (order-insensitive). -/
def dictEq (d1 d2 : Dict) : Bool :=
  d1.all (fun p => lookupKey p.1 d2 == some p.2) &&
  d2.all (fun p => lookupKey p.1 d1 == some p.2)

/-- Errors raised by the storage module and by attribute lookup:
`FrozenError(msg)`, `KeyError(key)`, `NameNotFound` (the message
`name {name} not found` is summarised by its name payload),
`TypeError(msg)` and `AttributeError` (the module-level message
`module configvars has no attribute {name}` is summarised by its name
payload). -/
inductive StorageErr where
  | frozenError (msg : String)
  | keyError (k : String)
  | nameNotFound (n : String)
  | typeError (msg : String)
  | attributeError (n : String)
deriving DecidableEq

/-- State of an `_AttrFrozenDict` instance: the private `self._data`
dictionary installed by `__init__`. -/
structure AttrFrozenDict where
  data : Dict
deriving DecidableEq

/-- Attempted `fd[k] = v`.  The class assigns
`__setitem__ = _frozen("cannot set item")`, so the call raises
`FrozenError("cannot set item")` before touching any state; the instance
the caller still holds is returned unchanged as the second component. -/
def setItemAttempt (self : AttrFrozenDict) (_k : String) (_v : Value) :
    Except StorageErr Unit × AttrFrozenDict :=
  (.error (.frozenError ("cannot set item")), self)

/-- Attempted `fd.k = v` via `__setattr__ = _frozen("cannot set attribute")`. -/
def setAttrAttempt (self : AttrFrozenDict) (_k : String) (_v : Value) :
    Except StorageErr Unit × AttrFrozenDict :=
  (.error (.frozenError ("cannot set attribute")), self)

/-- Attempted `del fd[k]` via `__delitem__ = _frozen("cannot delete item")`. -/
def delItemAttempt (self : AttrFrozenDict) (_k : String) :
    Except StorageErr Unit × AttrFrozenDict :=
  (.error (.frozenError ("cannot delete item")), self)

/-- Attempted `del fd.k` via `__delattr__ = _frozen("cannot delete attribute")`. -/
def delAttrAttempt (self : AttrFrozenDict) (_k : String) :
    Except StorageErr Unit × AttrFrozenDict :=
  (.error (.frozenError ("cannot delete attribute")), self)

/-- Embedding of `__getitem__`: `return self._data[name]`, raising
`KeyError(name)` when the key is absent. -/
def getItem (self : AttrFrozenDict) (name : String) : Except StorageErr Value :=
  match lookupKey name self.data with
  | some v => .ok v
  | none => .error (.keyError name)

/-- Embedding of `__getattr__`: same body as `__getitem__`, hence the same
`KeyError` (not an `AttributeError`) on a missing key. -/
def getAttr (self : AttrFrozenDict) (name : String) : Except StorageErr Value :=
  match lookupKey name self.data with
  | some v => .ok v
  | none => .error (.keyError name)

/-- Universe of objects an `_AttrFrozenDict` may be compared against: a
plain (mutable) dictionary, another wrapper instance, or any other object,
represented by a scalar value. -/
inductive PyObject where
  | dict (d : Dict)
  | frozen (w : AttrFrozenDict)
  | scalar (v : Value)

/-- Python type name of a scalar, used in the `__eq__` error message. -/
def typeName : Value → String
  | .vint _ => "int"
  | .vfloat _ => "float"
  | .vstr _ => "str"

/-- Embedding of `_AttrFrozenDict.__eq__` (lines 123-144 of `storage.py`):
a `MutableMapping` is compared against `self._data` directly; any object
carrying a `_data` attribute (i.e. another wrapper) is compared by its
`_data`; otherwise the `AttributeError` on `other._data` is converted to
a `TypeError`. -/
def pyEq (self : AttrFrozenDict) (other : PyObject) : Except StorageErr Bool :=
  match other with
  | .dict m => .ok (dictEq self.data m)
  | .frozen w => .ok (dictEq self.data w.data)
  | .scalar v =>
    .error (.typeError (("_AttrFrozenDict object cannot be compared to object of type ")
      ++ typeName v))

/-- Embedding of the module-level `__getattr__` of `__init__.py`
(lines 10-26): walk the held variable sets in order, return the first
subscript hit, let only `KeyError` continue the walk, and raise
`AttributeError` once every held set has missed. -/
def moduleGetattr (held : List AttrFrozenDict) (name : String) : Except StorageErr Value :=
  match held with
  | [] => .error (.attributeError name)
  | v :: rest =>
    match getItem v name with
    | .ok x => .ok x
    | .error (.keyError _) => moduleGetattr rest name
    | .error e => .error e

/-! ### Persistence: `_get_storage_location`, `_store_vars`, `_load_vars` -/

/-- Settings mapping with the two keys the storage functions read. -/
structure Settings where
  storageDir : String
  fileName : String
deriving DecidableEq

/-- Embedding of `str.format(name=name)` for templates whose only
replacement field is `{name}`. -/
def formatName (template : String) (name : String) : String :=
  template.replace ("\x7bname\x7d") name

/-- Embedding of the two-argument posix `os.path.join`. -/
def joinPath (a b : String) : String :=
  if b.startsWith ("/") then b
  else if a = "" then b
  else if a.endsWith ("/") then a ++ b
  else a ++ ("/") ++ b

/-- Embedding of `_get_storage_location` (line 154 of `storage.py`). -/
def getStorageLocation (name : String) (settings : Settings) : String :=
  formatName (joinPath settings.storageDir settings.fileName) name

/-- File system: a mapping from paths to stored JSON documents.  JSON
serialisation is the identity on the stored mapping: for string keys and
int/float/string values, `json.load` after `json.dump` restores an equal
object. -/
abbrev FS := List (String × Dict)

/-- Write a file, overwriting any existing content at that path. -/
def fsWrite : FS → String → Dict → FS
  | [], p, d => [(p, d)]
  | (p2, d2) :: t, p, d => if p2 = p then (p2, d) :: t else (p2, d2) :: fsWrite t p d

/-- Read a file, `none` when no file exists at that path. -/
def fsRead : FS → String → Option Dict
  | [], _ => none
  | (p2, d2) :: t, p => if p2 = p then some d2 else fsRead t p

/-- Embedding of `_store_vars` (lines 167-182): compute the storage
location and overwrite that file with the JSON dump of the variables. -/
def storeVars (name : String) (vars : Dict) (settings : Settings) (fs : FS) : FS :=
  fsWrite fs (getStorageLocation name settings) vars

/-- Embedding of `_load_vars` (lines 185-210): read and decode the file at
the storage location and wrap it in an `_AttrFrozenDict`; a missing file
(`FileNotFoundError`) becomes `NameNotFound`. -/
def loadVars (name : String) (settings : Settings) (fs : FS) : Except StorageErr AttrFrozenDict :=
  match fsRead fs (getStorageLocation name settings) with
  | some d => .ok ⟨d⟩
  | none => .error (.nameNotFound name)

/-! ### The interactive input loop `get_vars_dict` -/

/-- Ways the interactive loop can terminate abnormally: the `TypeError`
raised by `e + "\n"` in the `except` handler (an `Exception` instance
added to a `str`), and `EOFError` from `input()` when the line source is
exhausted before an empty line. -/
inductive MainErr where
  | typeErrorStrConcat
  | eofError
deriving DecidableEq

/-- One step of the `while True` loop of `get_vars_dict` (lines 67-84 of
`__main__utils.py`) over a finite list of pending input lines: an empty
line returns the accumulated dictionary; a line that parses is added with
`vars_dict[key] = value`; when `parse_key_value` raises, the handler
evaluates `e + "\n"`, which itself raises `TypeError` and aborts the
loop. -/
def getVarsDictLoop : List (List Char) → Dict → Except MainErr Dict
  | [], _ => .error .eofError
  | line :: rest, acc =>
    if line.isEmpty then .ok acc
    else
      match parseKeyValue line with
      | .ok (k, v) => getVarsDictLoop rest (dictSet acc k v)
      | .error _ => .error .typeErrorStrConcat

/-- Embedding of `get_vars_dict`, starting from the empty dictionary. -/
def getVarsDict (lines : List (List Char)) : Except MainErr Dict :=
  getVarsDictLoop lines []

/-! ### Heap model for `_AttrFrozenDict.__init__` (line 101 of `storage.py`)

The constructor runs `self.__dict__["_data"] = dict(*args, **kwargs)`, and
Python's `dict(d)` is a SHALLOW copy: it copies the top-level key/value
entries but shares every value object with the source.  To state what that
copy does and does not protect against, dictionaries and lists live in a
small heap; dictionary values are either immutable scalars or references
to mutable list objects (the mutable JSON values in scope). -/

/-- Heap address. -/
abbrev Loc := Nat

/-- A value slot of a heap dictionary: an immutable scalar or a reference
to a mutable list object. -/
inductive HVal where
  | scalar (v : Value)
  | listRef (r : Loc)
deriving DecidableEq

/-- Generic association-list lookup over heap addresses. -/
def lookupLoc {α : Type} (r : Loc) : List (Loc × α) → Option α
  | [] => none
  | (r2, x) :: t => if r2 = r then some x else lookupLoc r t

/-- Generic in-place update of the object stored at one heap address. -/
def updateLoc {α : Type} (r : Loc) (f : α → α) : List (Loc × α) → List (Loc × α)
  | [] => []
  | (r2, x) :: t => if r2 = r then (r2, f x) :: t else (r2, x) :: updateLoc r f t

/-- The heap: dictionary objects and list objects, each at an address. -/
structure Heap where
  dicts : List (Loc × List (String × HVal))
  lists : List (Loc × List Value)
deriving DecidableEq

/-- An address unused by any dictionary of the heap. -/
def freshLoc (h : Heap) : Loc :=
  (h.dicts.map Prod.fst).foldr max 0 + 1

/-- Entry update of a heap dictionary, with Python `d[k] = v` semantics. -/
def entSet : List (String × HVal) → String → HVal → List (String × HVal)
  | [], k, v => [(k, v)]
  | (k2, u) :: t, k, v => if k2 = k then (k2, v) :: t else (k2, u) :: entSet t k v

/-- Entry removal of a heap dictionary, with Python `del d[k]` semantics
(no-op here when the key is absent; the raised `KeyError` leaves the heap
unchanged as well). -/
def entDel : List (String × HVal) → String → List (String × HVal)
  | [], _ => []
  | (k2, u) :: t, k => if k2 = k then t else (k2, u) :: entDel t k

/-- Mutate the dictionary object at `ld` with `d[k] = v`. -/
def dictSetAt (h : Heap) (ld : Loc) (k : String) (v : HVal) : Heap :=
  { h with dicts := updateLoc ld (fun es => entSet es k v) h.dicts }

/-- Mutate the dictionary object at `ld` with `del d[k]`. -/
def dictDelAt (h : Heap) (ld : Loc) (k : String) : Heap :=
  { h with dicts := updateLoc ld (fun es => entDel es k) h.dicts }

/-- Mutate the list object at `r` with `l.append(v)`. -/
def listAppendAt (h : Heap) (r : Loc) (v : Value) : Heap :=
  { h with lists := updateLoc r (fun l => l ++ [v]) h.lists }

/-- Embedding of `_AttrFrozenDict.__init__` called on the dictionary at
`ld`: `dict(d)` allocates a fresh dictionary holding the same top-level
entries (value references shared) and installs it as the private
`self._data`.  Returns the heap after construction and the address of the
private dictionary. -/
def constructFrom (h : Heap) (ld : Loc) : Heap × Loc :=
  let entries := (lookupLoc ld h.dicts).getD []
  let l2 := freshLoc h
  ({ h with dicts := (l2, entries) :: h.dicts }, l2)

/-- What a reader of the wrapper observes for one stored slot: scalars
directly, list references by the current contents of the list object. -/
inductive ObsVal where
  | obsScalar (v : Value)
  | obsList (l : List Value)
deriving DecidableEq

/-- Resolve one slot against the heap. -/
def resolveVal (h : Heap) : HVal → ObsVal
  | .scalar v => .obsScalar v
  | .listRef r => .obsList ((lookupLoc r h.lists).getD [])

/-- Observable contents of the dictionary object at `ld`: every entry with
its value resolved against the current heap. -/
def contentsAt (h : Heap) (ld : Loc) : List (String × ObsVal) :=
  ((lookupLoc ld h.dicts).getD []).map (fun p => (p.1, resolveVal h p.2))

/-! ### Declarative characterisations used to state claims -/

/-- Declarative reading of the line shape actually accepted by
`parse_key_value`: an identifier, at most one space, one `=`, at most one
space, and a non-empty newline-free remainder (which may itself contain
further `=` characters). -/
def goodShape (s : List Char) : Prop :=
  ∃ name b d rest, s = name ++ (b ++ '=' :: (d ++ rest)) ∧ identMatch name = true ∧
    (b = [] ∨ b = [' ']) ∧ (d = [] ∨ d = [' ']) ∧ rest ≠ [] ∧ ∀ c ∈ rest, c ≠ '\n'

/-- Key uniqueness of an association list, the invariant every Python
`dict` satisfies. -/
def nodupKeys (d : Dict) : Prop := (d.map Prod.fst).Nodup

/-! ### Helper lemmas about the character classes and scanners -/

theorem class_ne (p : Char → Bool) (x : Char) (hx : p x = false) {c : Char}
    (hc : p c = true) : (c == x) = false := by
  cases h : c == x with
  | false => rfl
  | true => rw [eq_of_beq h] at hc; rw [hc] at hx; cases hx

theorem wordChar_of_identStart {c : Char} (h : isIdentStartChar c = true) :
    isWordChar c = true := by
  simp only [isIdentStartChar, Bool.or_eq_true] at h
  simp only [isWordChar, Char.isAlphanum, Bool.or_eq_true]
  rcases h with h | h
  · exact Or.inl (Or.inl h)
  · exact Or.inr h

theorem notNL_of_not_nl {c : Char} (h : (c == '\n') = false) : notNL c = true := by
  simp [notNL, h]

theorem ne_nl_of_notNL {c : Char} (h : notNL c = true) : c ≠ '\n' := by
  intro hc
  subst hc
  exact absurd h (by decide)

theorem notNL_of_ne_nl {c : Char} (h : c ≠ '\n') : notNL c = true := by
  apply notNL_of_not_nl
  cases hb : c == '\n' with
  | false => rfl
  | true => exact absurd (eq_of_beq hb) h

theorem all_takeWhile_self (p : Char → Bool) (l : List Char)
    (h : ∀ c ∈ l, p c = true) : l.takeWhile p = l := by
  induction l with
  | nil => rfl
  | cons c t ih =>
    rw [List.takeWhile_cons_of_pos (h c (List.mem_cons_self c t))]
    rw [ih (fun x hx => h x (List.mem_cons_of_mem c hx))]

theorem all_dropWhile_nil (p : Char → Bool) (l : List Char)
    (h : ∀ c ∈ l, p c = true) : l.dropWhile p = [] := by
  induction l with
  | nil => rfl
  | cons c t ih =>
    rw [List.dropWhile_cons_of_pos (h c (List.mem_cons_self c t))]
    exact ih (fun x hx => h x (List.mem_cons_of_mem c hx))

theorem takeWhile_append_of_head (p : Char → Bool) (l r : List Char)
    (hl : ∀ c ∈ l, p c = true) (hr : ∀ c, r.head? = some c → p c = false) :
    (l ++ r).takeWhile p = l := by
  induction l with
  | nil =>
    simp only [List.nil_append]
    cases r with
    | nil => rfl
    | cons c t =>
      rw [List.takeWhile_cons_of_neg]
      simp [hr c rfl]
  | cons c t ih =>
    rw [List.cons_append, List.takeWhile_cons_of_pos (hl c (List.mem_cons_self c t))]
    rw [ih (fun x hx => hl x (List.mem_cons_of_mem c hx))]

theorem dropWhile_append_of_head (p : Char → Bool) (l r : List Char)
    (hl : ∀ c ∈ l, p c = true) (hr : ∀ c, r.head? = some c → p c = false) :
    (l ++ r).dropWhile p = r := by
  induction l with
  | nil =>
    simp only [List.nil_append]
    cases r with
    | nil => rfl
    | cons c t =>
      rw [List.dropWhile_cons_of_neg]
      simp [hr c rfl]
  | cons c t ih =>
    rw [List.cons_append, List.dropWhile_cons_of_pos (hl c (List.mem_cons_self c t))]
    exact ih (fun x hx => hl x (List.mem_cons_of_mem c hx))

theorem searchEqGroup_append (l r : List Char)
    (hl : ∀ c ∈ l, (c == '=') = false) :
    searchEqGroup (l ++ r) = searchEqGroup r := by
  induction l with
  | nil => rfl
  | cons c t ih =>
    rw [List.cons_append]
    show (if c == '=' then _ else searchEqGroup (t ++ r)) = searchEqGroup r
    rw [hl c (List.mem_cons_self c t), if_neg (by exact Bool.false_ne_true)]
    exact ih (fun x hx => hl x (List.mem_cons_of_mem c hx))

/-! ### Facts about the three literal patterns -/

theorem quote_char_cases {c : Char} (h : isQuoteChar c = true) : c = '\'' ∨ c = '"' := by
  simp only [isQuoteChar, Bool.or_eq_true, beq_iff_eq] at h
  exact h

theorem intFullmatch_digits {v : List Char} (h : intFullmatch v = true) :
    dropSign v ≠ [] ∧ ∀ c ∈ dropSign v, isDigitChar c = true := by
  unfold intFullmatch digitsOnly1 at h
  rw [Bool.and_eq_true] at h
  constructor
  · intro hnil
    rw [hnil] at h
    exact absurd h.1 (by decide)
  · exact fun c hc => List.all_eq_true.mp h.2 c hc

theorem intFullmatch_nonempty {v : List Char} (h : intFullmatch v = true) : v ≠ [] := by
  intro hv
  subst hv
  exact absurd h (by decide)

theorem int_not_float {v : List Char} (h : intFullmatch v = true) :
    floatFullmatch v = false := by
  obtain ⟨hne, hall⟩ := intFullmatch_digits h
  unfold floatFullmatch floatTail
  rw [all_dropWhile_nil isDigitChar (dropSign v) hall]

theorem str_shape {v : List Char} (h : strFullmatch v = true) :
    ∃ c t, v = c :: t ∧ isQuoteChar c = true := by
  match v, h with
  | c :: d :: t, h =>
    rw [strFullmatch, Bool.and_eq_true] at h
    exact ⟨c, d :: t, rfl, h.1⟩

theorem str_not_int {v : List Char} (h : strFullmatch v = true) :
    intFullmatch v = false := by
  obtain ⟨c, t, rfl, hq⟩ := str_shape h
  rcases quote_char_cases hq with rfl | rfl
  · show digitsOnly1 (dropSign ('\'' :: t)) = false
    rw [dropSign, if_neg (by decide)]
    have hd : isDigitChar '\'' = false := by decide
    simp [digitsOnly1, hd]
  · show digitsOnly1 (dropSign ('"' :: t)) = false
    rw [dropSign, if_neg (by decide)]
    have hd : isDigitChar '"' = false := by decide
    simp [digitsOnly1, hd]

theorem floatTail_head_other {m : List Char} {c : Char} {t : List Char}
    (hm : m.dropWhile isDigitChar = c :: t)
    (hdot : (c == '.') = false) (hE : (c == 'E') = false) (he : (c == 'e') = false) :
    floatTail m = false := by
  unfold floatTail
  rw [hm]
  show (if c == '.' then _ else _) = false
  rw [hdot, if_neg Bool.false_ne_true, hE, he]
  simp

theorem str_not_float {v : List Char} (h : strFullmatch v = true) :
    floatFullmatch v = false := by
  obtain ⟨c, t, rfl, hq⟩ := str_shape h
  rcases quote_char_cases hq with rfl | rfl
  · show floatTail (dropSign ('\'' :: t)) = false
    rw [dropSign, if_neg (by decide)]
    exact floatTail_head_other (List.dropWhile_cons_of_neg (by decide))
      (by decide) (by decide) (by decide)
  · show floatTail (dropSign ('"' :: t)) = false
    rw [dropSign, if_neg (by decide)]
    exact floatTail_head_other (List.dropWhile_cons_of_neg (by decide))
      (by decide) (by decide) (by decide)

/-! ### Behaviour of `classify` -/

theorem classify_int {v : List Char} (h : intFullmatch v = true) :
    classify v = .ok (.vint (strToInt v)) := by
  have hf := int_not_float h
  have hs : strFullmatch v = false := by
    cases hsv : strFullmatch v with
    | false => rfl
    | true => rw [str_not_int hsv] at h; cases h
  simp [classify, h, hf, hs]

theorem classify_str_of_quotes (c1 : Char) (mid : List Char) (c2 : Char)
    (hstr : strFullmatch (c1 :: (mid ++ [c2])) = true) :
    classify (c1 :: (mid ++ [c2])) = .ok (.vstr (String.mk mid)) := by
  have hint : intFullmatch (c1 :: (mid ++ [c2])) = false := str_not_int hstr
  have hflt : floatFullmatch (c1 :: (mid ++ [c2])) = false := str_not_float hstr
  simp [classify, hstr, hint, hflt, stripOuter, List.dropLast_concat]

theorem classify_ne_syntax (v : List Char) : classify v ≠ .error .syntaxError := by
  intro h
  simp only [classify] at h
  cases hI : intFullmatch v <;> cases hF : floatFullmatch v <;> cases hS : strFullmatch v <;>
    rw [hI, hF, hS] at h <;> simp_all

theorem classify_ne_amb (v : List Char) : classify v ≠ .error .ambiguous := by
  intro h
  simp only [classify] at h
  cases hI : intFullmatch v <;> cases hF : floatFullmatch v <;> cases hS : strFullmatch v <;>
    rw [hI, hF, hS] at h
  · simp at h
  · simp at h
  · simp at h
  · rw [str_not_float hS] at hF; cases hF
  · simp at h
  · rw [str_not_int hS] at hI; cases hI
  · rw [int_not_float hI] at hF; cases hF
  · rw [int_not_float hI] at hF; cases hF

theorem classify_vstr_str {v : List Char} {w : String}
    (h : classify v = .ok (.vstr w)) : strFullmatch v = true := by
  cases hS : strFullmatch v with
  | true => rfl
  | false =>
    exfalso
    simp only [classify] at h
    cases hI : intFullmatch v <;> cases hF : floatFullmatch v <;>
      rw [hI, hF, hS] at h <;> simp_all

/-! ### Composition lemmas for well-shaped assignment lines -/

theorem identMatch_all_word {l : List Char} (h : identMatch l = true) :
    ∀ c ∈ l, isWordChar c = true := by
  match l, h with
  | c :: t, h =>
    rw [identMatch, Bool.and_eq_true] at h
    intro x hx
    rcases List.mem_cons.mp hx with rfl | hx
    · exact wordChar_of_identStart h.1
    · exact List.all_eq_true.mp h.2 x hx

theorem intFullmatch_all_notNL {v : List Char} (h : intFullmatch v = true) :
    ∀ c ∈ v, notNL c = true := by
  obtain ⟨hne, hdig⟩ := intFullmatch_digits h
  intro c hc
  match v, hc with
  | x :: t, hc =>
    have hdrop : dropSign (x :: t) = if x == '+' || x == '-' then t else x :: t := rfl
    by_cases hsign : (x == '+' || x == '-') = true
    · rw [hdrop, if_pos hsign] at hdig
      rcases List.mem_cons.mp hc with rfl | hc2
      · rcases (by simpa using hsign : c = '+' ∨ c = '-') with rfl | rfl <;> decide
      · exact notNL_of_not_nl (class_ne isDigitChar '\n' (by decide) (hdig c hc2))
    · rw [hdrop, if_neg hsign] at hdig
      exact notNL_of_not_nl (class_ne isDigitChar '\n' (by decide) (hdig c hc))

theorem intFullmatch_head_not_strip {v : List Char} (h : intFullmatch v = true) :
    ∀ c, v.head? = some c → (c == '=' || c == ' ') = false := by
  intro c hc
  obtain ⟨hne, hdig⟩ := intFullmatch_digits h
  match v, hc with
  | x :: t, hc =>
    obtain rfl : x = c := by simpa using hc
    by_cases hsign : (x == '+' || x == '-') = true
    · rcases (by simpa using hsign : x = '+' ∨ x = '-') with rfl | rfl <;> decide
    · have hdg : dropSign (x :: t) = x :: t := by rw [dropSign, if_neg hsign]
      rw [hdg] at hdig
      have hd : isDigitChar x = true := hdig x (List.mem_cons_self x t)
      rw [class_ne isDigitChar '=' (by decide) hd, class_ne isDigitChar ' ' (by decide) hd]
      rfl

theorem shape_of_parts (name b d rest : List Char)
    (hn : identMatch name = true) (hb : b = [] ∨ b = [' ']) (hd : d = [] ∨ d = [' '])
    (hr : rest ≠ []) (hnl : ∀ c ∈ rest, c ≠ '\n') :
    shapeMatch (name ++ (b ++ '=' :: (d ++ rest))) = true := by
  have hword := identMatch_all_word hn
  have hhead : ∀ c, (b ++ '=' :: (d ++ rest)).head? = some c → isWordChar c = false := by
    intro c hc
    rcases hb with rfl | rfl
    · obtain rfl : '=' = c := by simpa using hc
      decide
    · obtain rfl : ' ' = c := by simpa using hc
      decide
  have htake := takeWhile_append_of_head isWordChar name _ hword hhead
  have hdrop := dropWhile_append_of_head isWordChar name _ hword hhead
  have htail : tailMatch (d ++ rest) = true := by
    rw [tailMatch, Bool.and_eq_true]
    constructor
    · rcases hd with rfl | rfl <;>
        simp [List.isEmpty_eq_true, hr]
    · rw [List.all_eq_true]
      intro c hc
      rcases List.mem_append.mp hc with hc | hc
      · rcases hd with rfl | rfl
        · cases hc
        · obtain rfl : c = ' ' := by simpa using hc
          decide
      · exact notNL_of_ne_nl (hnl c hc)
  match name, hn with
  | c0 :: nt, hn =>
    rw [identMatch, Bool.and_eq_true] at hn
    unfold shapeMatch
    rw [htake, hdrop]
    rcases hb with rfl | rfl
    · show (isIdentStartChar c0 && tailMatch (d ++ rest)) = true
      rw [hn.1, htail]
      rfl
    · show (isIdentStartChar c0 && tailMatch (d ++ rest)) = true
      rw [hn.1, htail]
      rfl

theorem searchEq_of_parts (name b d rest : List Char)
    (hn : ∀ c ∈ name, isWordChar c = true) (hb : b = [] ∨ b = [' '])
    (hd : d = [] ∨ d = [' '])
    (hr : rest ≠ []) (hnl : ∀ c ∈ rest, notNL c = true) :
    searchEqGroup (name ++ (b ++ '=' :: (d ++ rest))) = some ('=' :: (d ++ rest)) := by
  have hne : ∀ c ∈ name ++ b, (c == '=') = false := by
    intro c hc
    rcases List.mem_append.mp hc with hc | hc
    · exact class_ne isWordChar '=' (by decide) (hn c hc)
    · rcases hb with rfl | rfl
      · cases hc
      · obtain rfl : c = ' ' := by simpa using hc
        decide
  have hassoc : name ++ (b ++ '=' :: (d ++ rest)) = (name ++ b) ++ '=' :: (d ++ rest) := by
    rw [List.append_assoc]
  rw [hassoc, searchEqGroup_append _ _ hne]
  have hall : ∀ c ∈ d ++ rest, notNL c = true := by
    intro c hc
    rcases List.mem_append.mp hc with hc | hc
    · rcases hd with rfl | rfl
      · cases hc
      · obtain rfl : c = ' ' := by simpa using hc
        decide
    · exact hnl c hc
  show (if ('=' == '=') then _ else _) = _
  rw [if_pos (by decide)]
  rw [all_takeWhile_self notNL (d ++ rest) hall]
  have hne2 : (d ++ rest).isEmpty = false := by
    rcases hd with rfl | rfl <;> simp [List.isEmpty_eq_true, hr]
  simp only [hne2]
  rfl

theorem lstrip_parts (d lit : List Char) (hd : d = [] ∨ d = [' '])
    (hhead : ∀ c, lit.head? = some c → (c == '=' || c == ' ') = false) :
    lstripEqSpace ('=' :: (d ++ lit)) = lit := by
  unfold lstripEqSpace
  have : ('=' :: (d ++ lit)) = ('=' :: d) ++ lit := by simp
  rw [this]
  apply dropWhile_append_of_head
  · intro c hc
    rcases List.mem_cons.mp hc with rfl | hc
    · decide
    · rcases hd with rfl | rfl
      · cases hc
      · obtain rfl : c = ' ' := by simpa using hc
        decide
  · exact hhead

/-! ### Shape-matcher correctness and the syntax-error condition -/

theorem ne_nil_of_isEmpty_false {l : List Char} (h : l.isEmpty = false) : l ≠ [] := by
  intro h2
  subst h2
  exact absurd h (by decide)

theorem tailMatch_unpack {t : List Char} (h : tailMatch t = true) :
    t ≠ [] ∧ ∀ c ∈ t, c ≠ '\n' := by
  rw [tailMatch, Bool.and_eq_true, Bool.not_eq_true'] at h
  exact ⟨ne_nil_of_isEmpty_false h.1,
    fun c hc => ne_nl_of_notNL (List.all_eq_true.mp h.2 c hc)⟩

theorem shape_iff_goodShape (s : List Char) : shapeMatch s = true ↔ goodShape s := by
  constructor
  · intro h
    have hsplit := List.takeWhile_append_dropWhile (p := isWordChar) (l := s)
    unfold shapeMatch at h
    split at h
    · cases h
    · rename_i c0 nt heq
      rw [Bool.and_eq_true] at h
      obtain ⟨h1, h2⟩ := h
      have hident : identMatch (c0 :: nt) = true := by
        rw [identMatch, Bool.and_eq_true, h1]
        refine ⟨rfl, List.all_eq_true.mpr fun x hx => ?_⟩
        exact List.mem_takeWhile_imp (heq ▸ List.mem_cons_of_mem c0 hx)
      split at h2
      · rename_i t hdw
        obtain ⟨hne, hnl⟩ := tailMatch_unpack h2
        refine ⟨c0 :: nt, [], [], t, ?_, hident, Or.inl rfl, Or.inl rfl, hne, hnl⟩
        have harm : (([] ++ '=' :: ([] ++ t)) : List Char) = '=' :: t := rfl
        rw [harm, ← heq, ← hdw]
        exact hsplit.symm
      · rename_i t hdw
        obtain ⟨hne, hnl⟩ := tailMatch_unpack h2
        refine ⟨c0 :: nt, [' '], [], t, ?_, hident, Or.inr rfl, Or.inl rfl, hne, hnl⟩
        have harm : (([' '] ++ '=' :: ([] ++ t)) : List Char) = ' ' :: '=' :: t := rfl
        rw [harm, ← heq, ← hdw]
        exact hsplit.symm
      · cases h2
  · rintro ⟨name, b, d, rest, rfl, hn, hb, hd, hr, hnl⟩
    exact shape_of_parts name b d rest hn hb hd hr hnl

theorem parse_not_syntax_of_shape {s : List Char} (h : shapeMatch s = true) :
    parseKeyValue s ≠ .error .syntaxError := by
  unfold parseKeyValue
  rw [if_pos h]
  cases hg : searchEqGroup s with
  | none => simp
  | some g =>
    cases hcg : classify (lstripEqSpace g) with
    | ok v => simp [hcg]
    | error e =>
      simp only [hcg]
      intro hE
      rw [Except.error.injEq] at hE
      exact classify_ne_syntax _ (hE ▸ hcg)

theorem parse_syntax_iff_not_shape (s : List Char) :
    parseKeyValue s = .error .syntaxError ↔ shapeMatch s = false := by
  cases h : shapeMatch s with
  | false =>
    have : parseKeyValue s = .error .syntaxError := by
      unfold parseKeyValue
      rw [if_neg (by rw [h]; exact Bool.false_ne_true)]
    simp [this]
  | true =>
    constructor
    · intro hM
      exact absurd hM (parse_not_syntax_of_shape h)
    · intro hc
      exact absurd hc (by decide)

/-! ### Claim theorems for the parser -/

/-- C1: every input line of the form `NAME = <int literal>` — an identifier
`[A-Za-z_][A-Za-z0-9_]*`, an optional space, `=`, an optional space, and an
optionally signed digit string — is parsed by `parse_key_value` into exactly
the pair of the name and the integer denoted by the literal. -/
theorem c1_parse_int_line (name b d lit : List Char)
    (hn : identMatch name = true)
    (hb : b = [] ∨ b = [' '])
    (hd : d = [] ∨ d = [' '])
    (hl : intFullmatch lit = true) :
    parseKeyValue (name ++ (b ++ '=' :: (d ++ lit))) =
      .ok (String.mk name, .vint (strToInt lit)) := by
  have hshape := shape_of_parts name b d lit hn hb hd (intFullmatch_nonempty hl)
    (fun c hc => ne_nl_of_notNL (intFullmatch_all_notNL hl c hc))
  have hsearch := searchEq_of_parts name b d lit (identMatch_all_word hn) hb hd
    (intFullmatch_nonempty hl) (intFullmatch_all_notNL hl)
  have hstrip := lstrip_parts d lit hd (intFullmatch_head_not_strip hl)
  have htake : (name ++ (b ++ '=' :: (d ++ lit))).takeWhile isWordChar = name := by
    apply takeWhile_append_of_head _ _ _ (identMatch_all_word hn)
    intro c hc
    rcases hb with rfl | rfl
    · obtain rfl : '=' = c := by simpa using hc
      decide
    · obtain rfl : ' ' = c := by simpa using hc
      decide
  unfold parseKeyValue
  rw [if_pos hshape, hsearch]
  simp only [hstrip, classify_int hl, htake]

/-- Witness for C1 at the concrete line `PIN = 9858`. -/
theorem c1_parse_int_line_witness :
    identMatch (("PIN").toList) = true ∧ intFullmatch (("9858").toList) = true ∧
    parseKeyValue ((("PIN").toList) ++ ([' '] ++ '=' :: ([' '] ++ ("9858").toList))) =
      .ok (String.mk (("PIN").toList), .vint (strToInt (("9858").toList))) :=
  ⟨by decide, by decide,
    c1_parse_int_line _ _ _ _ (by decide) (Or.inr rfl) (Or.inr rfl) (by decide)⟩

/-- C2 counterexample: the line `A == 5` contains two `=` between name and
literal yet parses successfully (no syntax error), and the line `A  = 5`
merely has two spaces before the `=` yet fails with a syntax error. -/
theorem c2_counterexample :
    parseKeyValue (("A == 5").toList) = .ok (String.mk (("A").toList), .vint 5) ∧
    parseKeyValue (("A  = 5").toList) = .error .syntaxError :=
  ⟨rfl, rfl⟩

/-- C2 (amended): for any line of ASCII characters, `parse_key_value`
raises a syntax error exactly when the line is NOT of the shape: an
identifier matching `[A-Za-z_][A-Za-z0-9_]*`, at most one space, one `=`,
at most one space, and a non-empty newline-free remainder.  The remainder
may contain further `=` characters (so more than one `=` can be accepted;
the extra leading `=` and spaces are stripped from the value), and at most
one space is allowed on each side of the `=`, not arbitrary whitespace.
The ASCII hypothesis records where the `\w` model is exact: on non-ASCII
lines Python's Unicode-aware `\w` additionally accepts word characters
such as `é` in the identifier tail, which this development does not
model. -/
theorem c2_syntax_error_condition (s : List Char)
    (_hascii : ∀ c ∈ s, c.toNat < 128) :
    parseKeyValue s = .error .syntaxError ↔ ¬ goodShape s := by
  rw [parse_syntax_iff_not_shape]
  constructor
  · intro hf hg
    rw [(shape_iff_goodShape s).mpr hg] at hf
    cases hf
  · intro hng
    cases h : shapeMatch s with
    | false => rfl
    | true => exact absurd ((shape_iff_goodShape s).mp h) hng

/-- Witness for C2: the amended equivalence evaluated at the ASCII line
`bad line`. -/
theorem c2_syntax_error_condition_witness :
    (∀ c ∈ (("bad line").toList), c.toNat < 128) ∧ ¬ goodShape (("bad line").toList) :=
  ⟨by decide, (c2_syntax_error_condition (("bad line").toList) (by decide)).mp rfl⟩

/-! ### String-literal classification -/

theorem lastD_append (l : List Char) (x dflt : Char) : lastD (l ++ [x]) dflt = x := by
  induction l with
  | nil => rfl
  | cons c t ih =>
    cases t with
    | nil => rfl
    | cons c2 t2 =>
      show lastD (c2 :: (t2 ++ [x])) dflt = x
      exact ih

theorem strFullmatch_iff (v : List Char) :
    strFullmatch v = true ↔
      ∃ c1 mid c2, v = c1 :: (mid ++ [c2]) ∧ isQuoteChar c1 = true ∧ isQuoteChar c2 = true := by
  constructor
  · intro h
    match v, h with
    | c :: d :: t, h =>
      rw [strFullmatch, Bool.and_eq_true] at h
      have hne : (d :: t) ≠ [] := by simp
      have hdec := List.dropLast_append_getLast hne
      refine ⟨c, (d :: t).dropLast, (d :: t).getLast hne, ?_, h.1, ?_⟩
      · rw [hdec]
      · have : lastD (d :: t) d = (d :: t).getLast hne := by
          conv => lhs; rw [← hdec]
          rw [lastD_append]
        rw [← this]
        exact h.2
  · rintro ⟨c1, mid, c2, rfl, h1, h2⟩
    cases mid with
    | nil =>
      show (isQuoteChar c1 && isQuoteChar (lastD [c2] c2)) = true
      rw [h1, show lastD [c2] c2 = c2 from rfl, h2]
      rfl
    | cons m ms =>
      show (isQuoteChar c1 && isQuoteChar (lastD (m :: (ms ++ [c2])) m)) = true
      have : m :: (ms ++ [c2]) = (m :: ms) ++ [c2] := rfl
      rw [this, lastD_append, h1, h2]
      rfl

/-- C3 counterexample: in the line `S = 'a"` the value `'a"` opens with a
single quote and closes with a double quote, yet `parse_key_value` accepts
it as a string literal and returns the text between the two mismatched
quotes. -/
theorem c3_counterexample :
    parseKeyValue (("S = 'a\"").toList) = .ok (String.mk (("S").toList), .vstr ("a")) :=
  rfl

/-- C3 (amended): `classify` treats a literal as a quoted string exactly
when its first and last characters are each quote characters (single or
double, NOT necessarily matching each other) with at least two characters
in total, and in that case it returns the enclosed text with the two outer
characters stripped. -/
theorem c3_string_classification (v : List Char) :
    ((∃ w, classify v = .ok (.vstr w)) ↔
      ∃ c1 mid c2, v = c1 :: (mid ++ [c2]) ∧ isQuoteChar c1 = true ∧ isQuoteChar c2 = true) ∧
    (∀ c1 mid c2, v = c1 :: (mid ++ [c2]) → isQuoteChar c1 = true → isQuoteChar c2 = true →
      classify v = .ok (.vstr (String.mk mid))) := by
  constructor
  · constructor
    · rintro ⟨w, hw⟩
      exact (strFullmatch_iff v).mp (classify_vstr_str hw)
    · rintro ⟨c1, mid, c2, rfl, h1, h2⟩
      exact ⟨String.mk mid, classify_str_of_quotes c1 mid c2
        ((strFullmatch_iff _).mpr ⟨c1, mid, c2, rfl, h1, h2⟩)⟩
  · rintro c1 mid c2 rfl h1 h2
    exact classify_str_of_quotes c1 mid c2
      ((strFullmatch_iff _).mpr ⟨c1, mid, c2, rfl, h1, h2⟩)

/-- Witness for C3: the amended classification evaluated on the concrete
mismatched-quote literal `'ab"`. -/
theorem c3_string_classification_witness :
    classify (("'ab\"").toList) = .ok (.vstr (String.mk (("ab").toList))) :=
  (c3_string_classification (("'ab\"").toList)).2 '\'' (("ab").toList) '"'
    rfl (by decide) (by decide)

/-- C4: the three literal patterns are pairwise disjoint — no literal text
matches two of the integer, float and string regexes — and therefore the
defensive more-than-one-match branch of `parse_key_value` is unreachable:
no input string makes it return the internal consistency error. -/
theorem c4_patterns_disjoint :
    (∀ v : List Char,
      (intFullmatch v && floatFullmatch v) = false ∧
      (intFullmatch v && strFullmatch v) = false ∧
      (floatFullmatch v && strFullmatch v) = false) ∧
    (∀ s : List Char, parseKeyValue s ≠ .error .ambiguous) := by
  constructor
  · intro v
    refine ⟨?_, ?_, ?_⟩
    · cases hI : intFullmatch v
      · rfl
      · rw [int_not_float hI]; rfl
    · cases hS : strFullmatch v
      · simp
      · rw [str_not_int hS]; rfl
    · cases hS : strFullmatch v
      · simp
      · rw [str_not_float hS]; rfl
  · intro s
    unfold parseKeyValue
    cases h : shapeMatch s with
    | false =>
      rw [if_neg (by decide)]
      simp
    | true =>
      rw [if_pos rfl]
      cases hg : searchEqGroup s with
      | none => simp
      | some g =>
        cases hcg : classify (lstripEqSpace g) with
        | ok v => simp [hcg]
        | error e =>
          simp only [hcg]
          intro hE
          rw [Except.error.injEq] at hE
          exact classify_ne_amb _ (hE ▸ hcg)

/-! ### Dictionary equality and lookup lemmas -/

theorem lookupKey_mem {k : String} {v : Value} {d : Dict}
    (h : lookupKey k d = some v) : (k, v) ∈ d := by
  induction d with
  | nil => cases h
  | cons p t ih =>
    obtain ⟨k2, u⟩ := p
    rw [lookupKey] at h
    by_cases hk : k2 = k
    · rw [if_pos hk] at h
      obtain rfl : u = v := by injection h
      subst hk
      exact List.mem_cons_self _ _
    · rw [if_neg hk] at h
      exact List.mem_cons_of_mem _ (ih h)

theorem mem_lookupKey {k : String} {v : Value} {d : Dict}
    (hnd : nodupKeys d) (h : (k, v) ∈ d) : lookupKey k d = some v := by
  induction d with
  | nil => cases h
  | cons p t ih =>
    obtain ⟨k2, u⟩ := p
    rw [nodupKeys, List.map_cons, List.nodup_cons] at hnd
    rcases List.mem_cons.mp h with heq | hmem
    · obtain ⟨rfl, rfl⟩ : k = k2 ∧ v = u := by
        rw [Prod.mk.injEq] at heq
        exact heq
      rw [lookupKey, if_pos rfl]
    · have hk : k ∈ t.map Prod.fst := List.mem_map.mpr ⟨(k, v), hmem, rfl⟩
      have hne : k2 ≠ k := fun hkk => hnd.1 (hkk ▸ hk)
      rw [lookupKey, if_neg hne]
      exact ih hnd.2 hmem

theorem dictEq_iff {d1 d2 : Dict} (h1 : nodupKeys d1) (h2 : nodupKeys d2) :
    dictEq d1 d2 = true ↔ ∀ k, lookupKey k d1 = lookupKey k d2 := by
  rw [dictEq, Bool.and_eq_true, List.all_eq_true, List.all_eq_true]
  constructor
  · rintro ⟨ha, hb⟩ k
    cases hl : lookupKey k d1 with
    | some v =>
      have := eq_of_beq (ha (k, v) (lookupKey_mem hl))
      exact this.symm
    | none =>
      cases hl2 : lookupKey k d2 with
      | none => rfl
      | some v =>
        have := eq_of_beq (hb (k, v) (lookupKey_mem hl2))
        rw [hl] at this
        cases this
  · intro h
    constructor
    · rintro ⟨k, v⟩ hm
      have hv : lookupKey k d1 = some v := mem_lookupKey h1 hm
      show (lookupKey k d2 == some v) = true
      rw [beq_iff_eq, ← h k]
      exact hv
    · rintro ⟨k, v⟩ hm
      show (lookupKey k d1 == some v) = true
      rw [beq_iff_eq, h k]
      exact mem_lookupKey h2 hm

/-! ### Claim theorems for `_AttrFrozenDict` -/

/-- C5: on any `_AttrFrozenDict` and for any key and value, each of the
four mutation operations (subscript set, attribute set, subscript delete,
attribute delete) fails with a `FrozenError` carrying its own
operation-specific message — the four messages are pairwise distinct — and
the underlying mapping after the failed attempt is the one the instance
started with. -/
theorem c5_mutation_frozen (fd : AttrFrozenDict) (k : String) (v : Value) :
    setItemAttempt fd k v = (.error (.frozenError ("cannot set item")), fd) ∧
    setAttrAttempt fd k v = (.error (.frozenError ("cannot set attribute")), fd) ∧
    delItemAttempt fd k = (.error (.frozenError ("cannot delete item")), fd) ∧
    delAttrAttempt fd k = (.error (.frozenError ("cannot delete attribute")), fd) ∧
    StorageErr.frozenError ("cannot set item") ≠ .frozenError ("cannot set attribute") ∧
    StorageErr.frozenError ("cannot set item") ≠ .frozenError ("cannot delete item") ∧
    StorageErr.frozenError ("cannot set item") ≠ .frozenError ("cannot delete attribute") ∧
    StorageErr.frozenError ("cannot set attribute") ≠ .frozenError ("cannot delete item") ∧
    StorageErr.frozenError ("cannot set attribute") ≠ .frozenError ("cannot delete attribute") ∧
    StorageErr.frozenError ("cannot delete item") ≠ .frozenError ("cannot delete attribute") :=
  ⟨rfl, rfl, rfl, rfl, by decide, by decide, by decide, by decide, by decide, by decide⟩

/-- C6: wrapper equality compares another wrapper by its underlying
mapping and a plain mutable mapping structurally (`dictEq` coincides with
extensional key agreement on duplicate-free dictionaries), while any other
operand raises a `TypeError` instead of returning a boolean. -/
theorem c6_eq_semantics (fd w : AttrFrozenDict) (m : Dict) (v : Value)
    (h1 : nodupKeys fd.data) (h2 : nodupKeys w.data) (h3 : nodupKeys m) :
    pyEq fd (.frozen w) = .ok (dictEq fd.data w.data) ∧
    (dictEq fd.data w.data = true ↔ ∀ k, lookupKey k fd.data = lookupKey k w.data) ∧
    pyEq fd (.dict m) = .ok (dictEq fd.data m) ∧
    (dictEq fd.data m = true ↔ ∀ k, lookupKey k fd.data = lookupKey k m) ∧
    pyEq fd (.scalar v) =
      .error (.typeError (("_AttrFrozenDict object cannot be compared to object of type ")
        ++ typeName v)) :=
  ⟨rfl, dictEq_iff h1 h2, rfl, dictEq_iff h1 h3, rfl⟩

/-- Witness for C6 on a concrete wrapper, mapping and scalar. -/
theorem c6_eq_semantics_witness :
    pyEq ⟨[(("A"), Value.vint 1)]⟩ (.dict [(("A"), Value.vint 1)]) = .ok true ∧
    pyEq ⟨[(("A"), Value.vint 1)]⟩ (.scalar (.vint 7)) =
      .error (.typeError (("_AttrFrozenDict object cannot be compared to object of type ")
        ++ typeName (.vint 7))) := by
  have hn : nodupKeys [(("A"), Value.vint 1)] := by simp [nodupKeys]
  have h := c6_eq_semantics ⟨[(("A"), Value.vint 1)]⟩ ⟨[(("A"), Value.vint 1)]⟩
    [(("A"), Value.vint 1)] (.vint 7) hn hn hn
  refine ⟨?_, h.2.2.2.2⟩
  rw [h.2.2.1]
  exact congrArg Except.ok ((h.2.2.2.1).mpr fun k => rfl)

/-- C10: attribute access on a wrapper misses with `KeyError`, exactly as
subscript access does (the two methods agree on every input), and the
module-level dynamic lookup lets those `KeyError`s drive its walk: it
raises `AttributeError` precisely when every held set misses the name. -/
theorem c10_missing_key_lookup (held : List AttrFrozenDict) (name : String) :
    (∀ fd : AttrFrozenDict, getAttr fd name = getItem fd name) ∧
    (∀ fd : AttrFrozenDict, lookupKey name fd.data = none →
      getAttr fd name = .error (.keyError name)) ∧
    (moduleGetattr held name = .error (.attributeError name) ↔
      ∀ fd ∈ held, lookupKey name fd.data = none) := by
  refine ⟨fun fd => rfl, fun fd h => by rw [getAttr, h], ?_⟩
  induction held with
  | nil => simp [moduleGetattr]
  | cons v rest ih =>
    rw [moduleGetattr]
    cases hl : lookupKey name v.data with
    | some x =>
      have hgi : getItem v name = .ok x := by rw [getItem, hl]
      simp [hgi, hl]
    | none =>
      have hgi : getItem v name = .error (.keyError name) := by rw [getItem, hl]
      simp only [hgi]
      rw [List.forall_mem_cons]
      simp [hl, ih]

/-- Witness for C10 on a concrete held list missing the requested name. -/
theorem c10_missing_key_lookup_witness :
    getAttr ⟨[(("A"), Value.vint 1)]⟩ ("B") = .error (.keyError ("B")) ∧
    moduleGetattr [⟨[(("A"), Value.vint 1)]⟩] ("B") = .error (.attributeError ("B")) := by
  have h := c10_missing_key_lookup [⟨[(("A"), Value.vint 1)]⟩] ("B")
  exact ⟨h.2.1 _ (by decide), h.2.2.mpr (by decide)⟩

/-! ### Claim theorems for persistence -/

theorem fsRead_fsWrite (fs : FS) (p : String) (d : Dict) :
    fsRead (fsWrite fs p d) p = some d := by
  induction fs with
  | nil => simp [fsWrite, fsRead]
  | cons e t ih =>
    obtain ⟨p2, d2⟩ := e
    by_cases hp : p2 = p
    · subst hp
      simp [fsWrite, fsRead]
    · simp [fsWrite, fsRead, hp, ih]

/-- C7: storing a variable set under a name and loading that name back
yields a wrapper over exactly the stored mapping, and (for any Python
dictionary, whose keys are duplicate-free) that wrapper compares
structurally equal to the original set. -/
theorem c7_store_load_roundtrip (name : String) (vars : Dict) (settings : Settings) (fs : FS) :
    loadVars name settings (storeVars name vars settings fs) = .ok ⟨vars⟩ ∧
    (nodupKeys vars → pyEq ⟨vars⟩ (.dict vars) = .ok true) := by
  constructor
  · rw [loadVars, storeVars, fsRead_fsWrite]
  · intro hnd
    show Except.ok (dictEq vars vars) = Except.ok true
    rw [(dictEq_iff hnd hnd).mpr fun k => rfl]

/-- Witness for C7 on a concrete variable set, storage name and settings. -/
theorem c7_store_load_roundtrip_witness :
    loadVars ("proj") { storageDir := "store", fileName := "\x7bname\x7d.json" }
        (storeVars ("proj") [(("PIN"), Value.vint 9574)]
          { storageDir := "store", fileName := "\x7bname\x7d.json" } []) =
      .ok ⟨[(("PIN"), Value.vint 9574)]⟩ ∧
    pyEq ⟨[(("PIN"), Value.vint 9574)]⟩ (.dict [(("PIN"), Value.vint 9574)]) = .ok true := by
  have h := c7_store_load_roundtrip ("proj") [(("PIN"), Value.vint 9574)]
    { storageDir := "store", fileName := "\x7bname\x7d.json" } []
  exact ⟨h.1, h.2 (by simp [nodupKeys])⟩

/-- C8: the claim that parsing errors are reported and the loop continues
is what the code intends but not what it does — in the `except` handler,
`sys.stdout.write(e + "\n")` adds an `Exception` instance to a `str`,
which raises `TypeError` and aborts the loop.  On the session
`bad line`, `A = 5`, empty line, the model of the code crashes at the
first line instead of recovering and collecting `A`. -/
theorem c8_error_reporting_crash :
    getVarsDict [("bad line").toList, ("A = 5").toList, []] = .error .typeErrorStrConcat :=
  rfl

/-! ### Claim theorems for the constructor's copy semantics -/

theorem le_foldr_max (l : List Nat) (r : Nat) (hr : r ∈ l) : r ≤ l.foldr max 0 := by
  induction l with
  | nil => cases hr
  | cons x t ih =>
    rcases List.mem_cons.mp hr with rfl | hr2
    · exact Nat.le_max_left _ _
    · exact Nat.le_trans (ih hr2) (Nat.le_max_right _ _)

theorem freshLoc_not_mem (h : Heap) : freshLoc h ∉ h.dicts.map Prod.fst := by
  intro hmem
  have := le_foldr_max (h.dicts.map Prod.fst) (freshLoc h) hmem
  rw [freshLoc] at this
  omega

theorem lookupLoc_updateLoc_ne {α : Type} (r r0 : Loc) (f : α → α) (l : List (Loc × α))
    (h : r ≠ r0) : lookupLoc r (updateLoc r0 f l) = lookupLoc r l := by
  induction l with
  | nil => rfl
  | cons e t ih =>
    obtain ⟨r2, x⟩ := e
    by_cases h2 : r2 = r0
    · subst h2
      rw [updateLoc, if_pos rfl]
      have hr : r2 ≠ r := fun hh => h (hh ▸ rfl)
      rw [lookupLoc, lookupLoc, if_neg hr, if_neg hr]
    · rw [updateLoc, if_neg h2]
      by_cases h3 : r2 = r
      · rw [lookupLoc, lookupLoc, if_pos h3, if_pos h3]
      · rw [lookupLoc, lookupLoc, if_neg h3, if_neg h3]
        exact ih

theorem resolveVal_lists_eq {h1 h2 : Heap} (hl : h1.lists = h2.lists) (x : HVal) :
    resolveVal h1 x = resolveVal h2 x := by
  cases x with
  | scalar v => rfl
  | listRef r => rw [resolveVal, resolveVal, hl]

theorem contentsAt_eq_of (h1 h2 : Heap) (ld : Loc)
    (hd : lookupLoc ld h1.dicts = lookupLoc ld h2.dicts) (hl : h1.lists = h2.lists) :
    contentsAt h1 ld = contentsAt h2 ld := by
  rw [contentsAt, contentsAt, hd]
  exact List.map_congr_left fun a _ => by rw [resolveVal_lists_eq hl]

/-- C9 counterexample: `dict(d)` is a shallow copy, so an external
reference to a mutable value shared with the source can still change the
wrapper's observable contents.  Concretely: the source dictionary (at
address 1) maps `A` to the list at address 0 holding `[1]`; after
construction, appending `2` to that list through the pre-existing
reference changes what the wrapper observes for `A`. -/
theorem c9_shallow_copy_counterexample :
    contentsAt
        (listAppendAt
          (constructFrom ⟨[(1, [(("A"), .listRef 0)])], [(0, [Value.vint 1])]⟩ 1).1
          0 (Value.vint 2))
        (constructFrom ⟨[(1, [(("A"), .listRef 0)])], [(0, [Value.vint 1])]⟩ 1).2 ≠
      contentsAt (constructFrom ⟨[(1, [(("A"), .listRef 0)])], [(0, [Value.vint 1])]⟩ 1).1
        (constructFrom ⟨[(1, [(("A"), .listRef 0)])], [(0, [Value.vint 1])]⟩ 1).2 := by
  decide

/-- C9 (amended): the constructor copies the top level of the source
mapping, so mutating any pre-existing dictionary — in particular setting
or deleting an entry of the original source mapping — leaves the wrapper's
observable contents unchanged; the copy is shallow, however, so mutating a
mutable value object shared with the source does change them (see the
counterexample). -/
theorem c9_top_level_copy (h : Heap) (ld ld0 : Loc) (k : String) (hv : HVal)
    (h0 : ld0 ∈ h.dicts.map Prod.fst) :
    contentsAt (dictSetAt (constructFrom h ld).1 ld0 k hv) (constructFrom h ld).2 =
      contentsAt (constructFrom h ld).1 (constructFrom h ld).2 ∧
    contentsAt (dictDelAt (constructFrom h ld).1 ld0 k) (constructFrom h ld).2 =
      contentsAt (constructFrom h ld).1 (constructFrom h ld).2 := by
  have hfresh := freshLoc_not_mem h
  have hne : freshLoc h ≠ ld0 := fun heq => hfresh (heq ▸ h0)
  constructor
  · exact contentsAt_eq_of _ _ _ (lookupLoc_updateLoc_ne _ _ _ _ hne) rfl
  · exact contentsAt_eq_of _ _ _ (lookupLoc_updateLoc_ne _ _ _ _ hne) rfl

/-- Witness for C9: top-level mutation of a concrete source dictionary
does not change the wrapper's observable contents. -/
theorem c9_top_level_copy_witness :
    contentsAt
        (dictSetAt (constructFrom ⟨[(1, [(("A"), HVal.scalar (Value.vint 5))])], []⟩ 1).1
          1 ("A") (.scalar (.vint 7)))
        (constructFrom ⟨[(1, [(("A"), HVal.scalar (Value.vint 5))])], []⟩ 1).2 =
      contentsAt (constructFrom ⟨[(1, [(("A"), HVal.scalar (Value.vint 5))])], []⟩ 1).1
        (constructFrom ⟨[(1, [(("A"), HVal.scalar (Value.vint 5))])], []⟩ 1).2 ∧
    contentsAt
        (dictDelAt (constructFrom ⟨[(1, [(("A"), HVal.scalar (Value.vint 5))])], []⟩ 1).1
          1 ("A"))
        (constructFrom ⟨[(1, [(("A"), HVal.scalar (Value.vint 5))])], []⟩ 1).2 =
      contentsAt (constructFrom ⟨[(1, [(("A"), HVal.scalar (Value.vint 5))])], []⟩ 1).1
        (constructFrom ⟨[(1, [(("A"), HVal.scalar (Value.vint 5))])], []⟩ 1).2 :=
  c9_top_level_copy ⟨[(1, [(("A"), HVal.scalar (Value.vint 5))])], []⟩ 1 1 ("A")
    (.scalar (.vint 7)) (by decide)

/-- Witness for C4: the disjointness and unreachability facts evaluated at
concrete literal and line texts. -/
theorem c4_patterns_disjoint_witness :
    (intFullmatch (("5").toList) && floatFullmatch (("5").toList)) = false ∧
    parseKeyValue (("x = 3").toList) ≠ .error .ambiguous :=
  ⟨(c4_patterns_disjoint.1 (("5").toList)).1, c4_patterns_disjoint.2 (("x = 3").toList)⟩

/-- Witness for C5 on a concrete instance, key and value. -/
theorem c5_mutation_frozen_witness :
    setItemAttempt ⟨[(("A"), Value.vint 1)]⟩ ("B") (.vint 2) =
      (.error (.frozenError ("cannot set item")), ⟨[(("A"), Value.vint 1)]⟩) ∧
    delAttrAttempt ⟨[(("A"), Value.vint 1)]⟩ ("A") =
      (.error (.frozenError ("cannot delete attribute")), ⟨[(("A"), Value.vint 1)]⟩) :=
  ⟨(c5_mutation_frozen ⟨[(("A"), Value.vint 1)]⟩ ("B") (.vint 2)).1,
    (c5_mutation_frozen ⟨[(("A"), Value.vint 1)]⟩ ("A") (.vint 2)).2.2.2.1⟩

end Configvars
